import Mathlib

/-!
Verification development for the lichess-bot session orchestrator
(src/main.py).  The Python source is shallowly embedded: pure helpers become
Lean functions, the Admission Controller loop in `start` becomes a step
function on an explicit state, and the Session Driver `play_game` becomes a
function over the list of items pulled from the per-game stream.  External
collaborators (the lichess HTTP client, `model.Challenge` scoring,
`chess.polyglot`, the engine) are modelled as oracle inputs, exactly at the
call boundaries where src/main.py invokes them.
-/

/--
Embeds a pending challenge.  `model.Challenge` lives outside src/main.py; the
control loop in `start` uses only its identity and its derived `score()`
value, so the score is carried as an abstract integer.  `arrival` is a ghost
field recording arrival order, used only to state orderings; the code never
reads it.
-/
structure Chal where
  arrival : Nat
  score : Int
  deriving DecidableEq, Repr

/--
Embeds one step of Python's stable sort used on the challenge queue:
`insEnd c q` inserts `c` after every element of `q` whose score is greater
than or equal to `c.score`, i.e. at the position a stable descending sort
gives to the newest element.
-/
def insEnd (c : Chal) : List Chal → List Chal
  | [] => [c]
  | d :: ds => if d.score < c.score then c :: d :: ds else d :: insEnd c ds

/--
Embeds `challenge_queue.sort(key=lambda c: -c.score())` (src/main.py line 65).
Python's `list.sort` is documented stable, so it is embedded as a stable
insertion sort by descending score: elements are inserted left to right, each
landing after all earlier elements of greater or equal score.
-/
def pySortByScoreDesc (l : List Chal) : List Chal :=
  l.foldl (fun acc c => insEnd c acc) []

/--
Embeds src/main.py lines 63-65: a supported challenge is appended to the
queue, and unless `config.get("sort_challenges_by") == "first"` the whole
queue is re-sorted by descending score.  The configuration value is an
`Option String` because `config.get` yields `None` when the key is absent.
-/
def enqueueChallenge (sortBy : Option String) (q : List Chal) (c : Chal) : List Chal :=
  let q2 := q ++ [c]
  if sortBy ≠ some "first" then pySortByScoreDesc q2 else q2

/-- Embeds `challenge_queue.pop(0)` (src/main.py line 84): pop at the head. -/
def popFront : List Chal → Option (Chal × List Chal)
  | [] => none
  | c :: rest => some (c, rest)

/--
Outcome of one lichess HTTP call (`li.accept_challenge`, `li.decline_challenge`):
success, an `HTTPError` with status 404, or any other raised error.
-/
inductive HttpResult where
  | ok
  | notFound
  | otherError
  deriving DecidableEq, Repr

/--
Embeds the control events consumed by the Admission Controller loop
(src/main.py lines 56-81).  A challenge event carries the parsed challenge,
the oracle value of `chlng.is_supported(config)` and the HTTP outcome of the
decline request that would be issued if unsupported.  Event types the loop
does not match on (e.g. ping, chatLine) fall through to the drain step.
-/
inductive CEvent where
  | ping
  | chatLine
  | challenge (c : Chal) (supported : Bool) (declineRes : HttpResult)
  | gameStart
  | localGameDone
  deriving DecidableEq, Repr

/-- Configuration read by `start`: `max_concurrent_games` and `sort_challenges_by`. -/
structure AdmConfig where
  maxGames : Int
  sortBy : Option String
  deriving DecidableEq, Repr

/--
State owned by the Admission Controller loop in `start` (src/main.py lines
47-52): the counters `queued_processes` and `busy_processes` and the pending
challenge queue.  Counters are integers because Python integers can go
negative on decrement.
-/
structure AdmState where
  queuedProcesses : Int
  busyProcesses : Int
  pending : List Chal
  deriving DecidableEq, Repr

def initialAdmState : AdmState := ⟨0, 0, []⟩

/--
Embeds the queue-draining loop, src/main.py lines 83-94: while
`queued + busy < max_games` and the queue is nonempty, pop the head and try
to accept it.  `acc` is the oracle giving the HTTP outcome of
`li.accept_challenge` per challenge: on success `queued_processes` is
incremented; a 404 skips the missing challenge; any other `HTTPError` is
re-raised out of the loop, modelled by `none`.  On exit it returns the
remaining queue and the new queued counter (`busy` is not written here).
-/
def drainQueue (cfg : AdmConfig) (acc : Chal → HttpResult) :
    List Chal → Int → Int → Option (List Chal × Int)
  | [], queued, _ => some ([], queued)
  | c :: rest, queued, busy =>
    if queued + busy < cfg.maxGames then
      match acc c with
      | .ok => drainQueue cfg acc rest (queued + 1) busy
      | .notFound => drainQueue cfg acc rest queued busy
      | .otherError => none
    else
      some (c :: rest, queued)

/--
Embeds one iteration of the Admission Controller loop in `start`
(src/main.py lines 55-94): dispatch on the event type, then run the drain
step.  `none` models an exception propagating out of the loop (a non-404
`HTTPError` from a decline or accept request).  On `gameStart` the code
only decrements `queued_processes` when it is positive (logging otherwise)
and always increments `busy_processes`; on `local_game_done` it decrements
`busy_processes` unconditionally.
-/
def handleEvent (cfg : AdmConfig) (acc : Chal → HttpResult) (s : AdmState) (e : CEvent) :
    Option AdmState :=
  let step : Option AdmState :=
    match e with
    | .ping => some s
    | .chatLine => some s
    | .challenge c supported declineRes =>
      if supported then
        some { s with pending := enqueueChallenge cfg.sortBy s.pending c }
      else
        match declineRes with
        | .otherError => none
        | _ => some s
    | .gameStart =>
      let q := if s.queuedProcesses ≤ 0 then s.queuedProcesses else s.queuedProcesses - 1
      some { s with queuedProcesses := q, busyProcesses := s.busyProcesses + 1 }
    | .localGameDone => some { s with busyProcesses := s.busyProcesses - 1 }
  match step with
  | none => none
  | some s1 =>
    match drainQueue cfg acc s1.pending s1.queuedProcesses s1.busyProcesses with
    | none => none
    | some (p, q) => some ⟨q, s1.busyProcesses, p⟩

/--
Runs the Admission Controller over a list of control events, stopping with
`none` as soon as an event handler raises.
-/
def processEvents (cfg : AdmConfig) (acc : Chal → HttpResult) :
    AdmState → List CEvent → Option AdmState
  | s, [] => some s
  | s, e :: es =>
    match handleEvent cfg acc s e with
    | none => none
    | some s1 => processEvents cfg acc s1 es

/-- Folds challenge arrivals into the pending queue (the line 63-65 path only). -/
def processChallenges (sortBy : Option String) (cs : List Chal) : List Chal :=
  cs.foldl (enqueueChallenge sortBy) []

/--
Embeds the fixed per-game data used for turn determination: `game.is_white`
and `game.white_starts` are booleans fixed when `model.Game` is constructed at
game start.
-/
structure GameInfo where
  is_white : Bool
  white_starts : Bool
  deriving DecidableEq, Repr

/-- Embeds `is_white_to_move` (src/main.py lines 206-207). -/
def is_white_to_move (g : GameInfo) (moves : List String) : Bool :=
  moves.length % 2 == (if g.white_starts then 0 else 1)

/-- Embeds `is_engine_move` (src/main.py lines 210-214). -/
def is_engine_move (g : GameInfo) (moves : List String) : Bool :=
  (g.is_white && is_white_to_move g moves) ||
    (!g.is_white && !(is_white_to_move g moves))

/--
Embeds the board abstractly as its move stack, which is all the claims here
depend on: `chess.Board.push` appends the move, so `update_board`
(src/main.py lines 217-220) appends one move to the stack.
-/
def update_board (board : List String) (move : String) : List String :=
  board ++ [move]

/--
Embeds the board update in the gameState branch (src/main.py lines 127-128):
a single `update_board` push of `moves[-1]`, the last element of the update's
move list.  `none` models the `IndexError` that `moves[-1]` raises on an
empty list.
-/
def applyGameState (board : List String) (moves : List String) : Option (List String) :=
  moves.getLast?.map (update_board board)

/-- Engine configuration keys of `config["engine"]` read by src/main.py. -/
structure EngineCfg where
  polyglot : Bool
  polyglotMaxDepth : Int
  polyglotRandom : Bool
  deriving DecidableEq, Repr

/--
Embeds the guard of src/main.py line 131: `get_book_move` is called exactly
when the polyglot book is enabled and
`len(moves) <= (polyglot_max_depth * 2) - 1`.
-/
def bookConsulted (cfg : EngineCfg) (plyCount : Nat) : Bool :=
  cfg.polyglot && ((plyCount : Int) ≤ cfg.polyglotMaxDepth * 2 - 1)

/--
Embeds the move choice of src/main.py lines 130-134: `best_move` starts as
`None`, is set from the book oracle only when `bookConsulted` holds, and
falls back to `engine.search` (the `eng` oracle) when still `None`.
-/
def chooseMove (cfg : EngineCfg) (plyCount : Nat) (book : Option String) (eng : String) :
    String :=
  let bestMove : Option String := if bookConsulted cfg plyCount then book else none
  match bestMove with
  | some m => m
  | none => eng

/--
Embeds the outcomes of the external `chess.polyglot` calls inside
`get_book_move`: opening the reader file, and the two query forms
`reader.choice(board).move()` and
`reader.find(board, polyglot_min_weight).move()`.  `Except.error` covers any
raised exception (missing file, missing config key, no matching entry).
-/
structure PolyglotOracle where
  openReader : Except Unit Unit
  choiceMove : Except Unit String
  findMove : Except Unit String

/--
Embeds `get_book_move` (src/main.py lines 177-188): the whole body runs under
a bare `except: pass`, so any failure yields `None`; a successful query
returns the move.  Totality of this Lean function is the "never raises" part
of the contract.
-/
def get_book_move (cfg : EngineCfg) (o : PolyglotOracle) : Option String :=
  match o.openReader with
  | .error _ => none
  | .ok _ =>
    match (if cfg.polyglotRandom then o.choiceMove else o.findMove) with
    | .ok m => some m
    | .error _ => none

/--
Embeds `play_first_move` (src/main.py lines 155-162), returning the move
submitted via `li.make_move`, if any; `firstSearchMove` is the oracle value
of `engine.first_search(board, 2000)`.
-/
def play_first_move (g : GameInfo) (moves : List String) (firstSearchMove : String) :
    Option String :=
  if is_engine_move g moves then some firstSearchMove else none

/--
Embeds `play_first_book_move` (src/main.py lines 165-174), returning the move
submitted: the book move when `get_book_move` yields one, otherwise whatever
`play_first_move` submits.
-/
def play_first_book_move (g : GameInfo) (moves : List String) (cfg : EngineCfg)
    (o : PolyglotOracle) (firstSearchMove : String) : Option String :=
  if is_engine_move g moves then
    match get_book_move cfg o with
    | some m => some m
    | none => play_first_move g moves firstSearchMove
  else
    none

/--
Modelled from the spec: `model.Game.should_abort_now` lives in model.py,
which is not under src/.  Spec 4.3 has the idle abort fire only once "the
abort deadline has elapsed", and spec 8 requires that at exactly the window
it must not trigger, so the deadline comparison is strict: the current time
must be past `abortAt`.
-/
def should_abort_now (abortAt now : Int) : Bool :=
  abortAt < now

/--
Modelled from the spec: `model.Game.abort_in(seconds)` (model.py, not under
src/) resets the abort deadline to a fixed window after the current time, as
described in spec 4.3 ("reset the idle-abort deadline (fixed window from
now)").
-/
def abort_in (now seconds : Int) : Int :=
  now + seconds

/--
Embeds the abort decision of the ping branch (src/main.py line 138): abort
exactly when `game.should_abort_now()` and the moves string
`game.state["moves"]` has fewer than 6 characters.
-/
def pingAborts (movesStr : String) (abortAt now : Int) : Bool :=
  should_abort_now abortAt now && decide (movesStr.length < 6)

/--
Embeds Python's `upd["moves"].split()` on a moves string: split on spaces and
drop empty fragments (Python's argument-free `split` never yields empty
strings, and `"".split()` is `[]`).
-/
def pySplit (s : String) : List String :=
  (s.split (fun c => c = ' ')).filter (fun t => t ≠ "")

/--
Joining a move list into the server's moves string with single spaces, the
inverse direction of `pySplit`; used to state properties of the
`len(game.state["moves"]) < 6` test in terms of moves played.
-/
def joinMoves : List String → String
  | [] => ""
  | m :: ms =>
    match ms with
    | [] => m
    | _ :: _ => m ++ " " ++ joinMoves ms

/--
Embeds the items pulled from the per-game stream inside the `try` of
`play_game` (src/main.py lines 120-140).  A `gameState` item carries the
update's moves string, the oracle results of `get_book_move` and
`engine.search`, and the wall-clock time at which it is processed; `ping`
covers both explicit pings and empty keep-alive chunks (line 122);
`transportErr` is an exception from the caught set (RemoteDisconnected,
ConnectionError, ProtocolError, HTTPError) raised while streaming.
-/
inductive StreamItem where
  | chatLine
  | gameState (movesStr : String) (book : Option String) (eng : String) (now : Int)
  | ping (now : Int)
  | transportErr
  deriving DecidableEq, Repr

/-- Per-session mutable state of `play_game`: `game.state["moves"]`, the board
move stack, and the abort deadline. -/
structure SessionState where
  stateMovesStr : String
  board : List String
  abortAt : Int
  deriving DecidableEq, Repr

/-- Observable effects of one `play_game` run: moves submitted via
`li.make_move`, abort requests via `li.abort`, `engine.quit()` calls, and
`local_game_done` events pushed onto the control queue. -/
structure SessionEffects where
  movesMade : List String
  abortReqs : Nat
  quitCalls : Nat
  donePushes : Nat
  deriving DecidableEq, Repr

/-- How the update loop of `play_game` ended: stream exhausted, an exception
from the caught transport set, or an uncaught exception (e.g. `moves[-1]` on
an empty list). -/
inductive LoopExit where
  | streamEnd
  | caughtTransport
  | uncaughtErr
  deriving DecidableEq, Repr

/--
Embeds the update loop of `play_game` (src/main.py lines 120-140).  Chat
lines go to the conversation collaborator (no session state change); a
gameState stores the update, pushes `moves[-1]` onto the board and, when it
is the engine's turn, submits `chooseMove` and resets the abort deadline 20
seconds from now; a ping issues an abort request when `pingAborts` holds; a
transport error ends the loop as a caught exception.
-/
def runUpdates (g : GameInfo) (cfg : EngineCfg) :
    SessionState → SessionEffects → List StreamItem →
      SessionState × SessionEffects × LoopExit
  | st, eff, [] => (st, eff, .streamEnd)
  | st, eff, .chatLine :: rest => runUpdates g cfg st eff rest
  | st, eff, .transportErr :: _ => (st, eff, .caughtTransport)
  | st, eff, .ping now :: rest =>
    if pingAborts st.stateMovesStr st.abortAt now then
      runUpdates g cfg st { eff with abortReqs := eff.abortReqs + 1 } rest
    else
      runUpdates g cfg st eff rest
  | st, eff, .gameState movesStr book eng now :: rest =>
    let moves := pySplit movesStr
    match applyGameState st.board moves with
    | none => ({ st with stateMovesStr := movesStr }, eff, .uncaughtErr)
    | some newBoard =>
      let st1 : SessionState := ⟨movesStr, newBoard, st.abortAt⟩
      if is_engine_move g moves then
        let mv := chooseMove cfg moves.length book eng
        runUpdates g cfg { st1 with abortAt := abort_in now 20 }
          { eff with movesMade := eff.movesMade ++ [mv] } rest
      else
        runUpdates g cfg st1 eff rest

/-- Data produced by the initialization and first-move phase of `play_game`
(src/main.py lines 100-117) when it completes without raising. -/
structure InitData where
  g : GameInfo
  cfg : EngineCfg
  st : SessionState
  deriving DecidableEq, Repr

/--
Embeds `play_game` (src/main.py lines 99-149).  `initResult = none` models an
exception raised during initialization or the first-move phase (lines
100-117): that code runs before the `try` statement, so the exception
propagates with no cleanup.  Otherwise the update loop runs inside
`try/except/finally`: the `finally` always calls `engine.quit()` once and
pushes one `local_game_done` event, whichever way the loop exited.
-/
def play_game (initResult : Option InitData) (items : List StreamItem) : SessionEffects :=
  match initResult with
  | none => ⟨[], 0, 0, 0⟩
  | some d =>
    let r := runUpdates d.g d.cfg d.st ⟨[], 0, 0, 0⟩ items
    let eff := r.2.1
    { eff with quitCalls := eff.quitCalls + 1, donePushes := eff.donePushes + 1 }

/--
The capacity invariant claimed for the Admission Controller: both counters
are nonnegative and their sum stays within `max_concurrent_games`.
-/
def admInv (cfg : AdmConfig) (s : AdmState) : Prop :=
  0 ≤ s.queuedProcesses ∧ 0 ≤ s.busyProcesses ∧
    s.queuedProcesses + s.busyProcesses ≤ cfg.maxGames

/--
Well-matched control events with respect to the current state: a `gameStart`
answers an earlier accepted challenge (`queued_processes` is positive) and a
`local_game_done` answers an earlier launched game (`busy_processes` is
positive).  The lichess protocol provides this; the code itself does not
enforce it (it logs and continues).
-/
def wfEvent (s : AdmState) (e : CEvent) : Prop :=
  (e = .gameStart → 0 < s.queuedProcesses) ∧
    (e = .localGameDone → 0 < s.busyProcesses)

/--
Reachability in the Admission Controller loop along well-matched events:
`AdmReach cfg acc s t` holds when `t` arises from `s` by handling finitely
many events, each well-matched at the state where it is handled.
-/
inductive AdmReach (cfg : AdmConfig) (acc : Chal → HttpResult) : AdmState → AdmState → Prop
  | refl (s : AdmState) : AdmReach cfg acc s s
  | step {s t u : AdmState} {e : CEvent} (hr : AdmReach cfg acc s t)
      (hwf : wfEvent t e) (hstep : handleEvent cfg acc t e = some u) :
      AdmReach cfg acc s u

/-- Descending-score comparison on challenges (the sort key of line 65). -/
abbrev scoreGe (a b : Chal) : Prop :=
  b.score ≤ a.score

/--
The order a stable descending-score sort realizes on challenges with distinct
arrival indices: strictly greater score first, and arrival order within equal
scores.
-/
abbrev lexLt (a b : Chal) : Prop :=
  b.score < a.score ∨ (b.score = a.score ∧ a.arrival < b.arrival)

/-- Arrival order on challenges. -/
abbrev arrivalLt (a b : Chal) : Prop :=
  a.arrival < b.arrival

/--
C9: turn determination is deterministic and is a function of the fixed color
assignment and the parity of the ply count alone: evaluating `is_engine_move`
on the same move list any number of times yields the same result, and any two
move lists with equal ply-count parity yield the same result for the same
game.
-/
theorem C9_turn_parity :
    (∀ (g : GameInfo) (moves : List String),
        is_engine_move g moves = is_engine_move g moves) ∧
    (∀ (g : GameInfo) (m1 m2 : List String),
        m1.length % 2 = m2.length % 2 →
        is_engine_move g m1 = is_engine_move g m2) := by
  refine ⟨fun g moves => rfl, fun g m1 m2 h => ?_⟩
  simp only [is_engine_move, is_white_to_move, h]

theorem C9_turn_parity_witness :
    is_engine_move ⟨true, true⟩ ["e2e4", "e7e5"] = is_engine_move ⟨true, true⟩ [] :=
  C9_turn_parity.2 ⟨true, true⟩ ["e2e4", "e7e5"] [] (by decide)

/--
C10: the gameState branch applies only the final element of the update's move
list as a single push, so the stored board matches the server's full move
list exactly when the update extends the stored history by one move; an
update repeating the same move list, or adding two new moves, is still
applied as one push of its last move.
-/
theorem C10_single_last_push :
    (∀ (b ms : List String) (m : String), ms.getLast? = some m →
        applyGameState b ms = some (update_board b m)) ∧
    (∀ (h : List String) (m : String),
        applyGameState h (h ++ [m]) = some (h ++ [m])) ∧
    (applyGameState ["e2e4"] ["e2e4"] = some ["e2e4", "e2e4"] ∧
        ["e2e4", "e2e4"] ≠ ["e2e4"]) ∧
    (applyGameState [] ["e2e4", "e7e5"] = some ["e7e5"] ∧
        ["e7e5"] ≠ ["e2e4", "e7e5"]) := by
  refine ⟨?_, ?_, ⟨rfl, by decide⟩, ⟨rfl, by decide⟩⟩
  · intro b ms m hm
    simp [applyGameState, hm]
  · intro h m
    simp [applyGameState, update_board]

theorem C10_single_last_push_witness :
    applyGameState ["d2d4"] ["d2d4", "g8f6"] = some (update_board ["d2d4"] "g8f6") :=
  C10_single_last_push.1 ["d2d4"] ["d2d4", "g8f6"] "g8f6" (by decide)

/--
C4: the polyglot book is consulted only while the ply count satisfies
`ply_count ≤ 2 * depth_limit - 1`; once the ply count exceeds that bound the
book is not consulted and the engine's move is chosen even when the book
would return a move.
-/
theorem C4_book_depth_window :
    (∀ (cfg : EngineCfg) (n : Nat), bookConsulted cfg n = true →
        cfg.polyglot = true ∧ (n : Int) ≤ cfg.polyglotMaxDepth * 2 - 1) ∧
    (∀ (cfg : EngineCfg) (n : Nat) (m eng : String),
        cfg.polyglotMaxDepth * 2 - 1 < (n : Int) →
        bookConsulted cfg n = false ∧ chooseMove cfg n (some m) eng = eng) := by
  constructor
  · intro cfg n h
    have h2 := h
    simp only [bookConsulted, Bool.and_eq_true, decide_eq_true_eq] at h2
    exact h2
  · intro cfg n m eng h
    have hb : bookConsulted cfg n = false := by
      simp only [bookConsulted, Bool.and_eq_false_iff]
      right
      simp only [decide_eq_false_iff_not, not_le]
      omega
    exact ⟨hb, by simp [chooseMove, hb]⟩

theorem C4_book_depth_window_witness :
    bookConsulted ⟨true, 4, false⟩ 8 = false ∧
      chooseMove ⟨true, 4, false⟩ 8 (some "e2e4") "g1f3" = "g1f3" :=
  C4_book_depth_window.2 ⟨true, 4, false⟩ 8 "e2e4" "g1f3" (by decide)

/--
C8: any failure opening or querying the polyglot source makes `get_book_move`
return no suggestion (the embedding is a total function, reflecting that the
bare `except` swallows every exception), and both callers fall back to the
engine: the in-game choice returns the `engine.search` move and the
first-move path degenerates to `play_first_move`.
-/
theorem C8_book_failure_is_none :
    (∀ (cfg : EngineCfg) (o : PolyglotOracle), o.openReader = .error () →
        get_book_move cfg o = none) ∧
    (∀ (cfg : EngineCfg) (o : PolyglotOracle),
        (if cfg.polyglotRandom then o.choiceMove else o.findMove) = .error () →
        get_book_move cfg o = none) ∧
    (∀ (cfg : EngineCfg) (n : Nat) (o : PolyglotOracle) (eng : String),
        get_book_move cfg o = none →
        chooseMove cfg n (get_book_move cfg o) eng = eng) ∧
    (∀ (g : GameInfo) (moves : List String) (cfg : EngineCfg) (o : PolyglotOracle)
        (fsm : String), get_book_move cfg o = none →
        play_first_book_move g moves cfg o fsm = play_first_move g moves fsm) := by
  refine ⟨?_, ?_, ?_, ?_⟩
  · intro cfg o h
    simp [get_book_move, h]
  · intro cfg o h
    cases ho : o.openReader with
    | error e => simp [get_book_move, ho]
    | ok u => simp [get_book_move, ho, h]
  · intro cfg n o eng h
    rw [h]
    simp [chooseMove]
  · intro g moves cfg o fsm h
    simp only [play_first_book_move, h, play_first_move]
    split <;> rfl

theorem C8_book_failure_is_none_witness :
    get_book_move ⟨true, 8, false⟩ ⟨Except.error (), Except.ok "e2e4", Except.ok "d2d4"⟩
      = none :=
  C8_book_failure_is_none.1 ⟨true, 8, false⟩
    ⟨Except.error (), Except.ok "e2e4", Except.ok "d2d4"⟩ rfl

theorem joinMoves_length_ge (ms : List String) (hne : ms ≠ [])
    (h4 : ∀ m ∈ ms, 4 ≤ m.length) : 4 ≤ (joinMoves ms).length := by
  match ms with
  | [m] => simpa using h4 m (by simp)
  | m :: m2 :: rest =>
    have h1 : 4 ≤ m.length := h4 m (by simp)
    show 4 ≤ (m ++ " " ++ joinMoves (m2 :: rest)).length
    rw [String.length_append, String.length_append]
    omega

theorem joinMoves_short_iff (ms : List String)
    (hwf : ∀ m ∈ ms, 4 ≤ m.length ∧ m.length ≤ 5) :
    ((joinMoves ms).length < 6 ↔ ms.length < 2) := by
  match ms with
  | [] => simp [joinMoves]
  | [m] =>
    have := hwf m (by simp)
    show (m.length < 6 ↔ 1 < 2)
    omega
  | m :: m2 :: rest =>
    have h1 : 4 ≤ m.length := (hwf m (by simp)).1
    have h2 : 4 ≤ (joinMoves (m2 :: rest)).length :=
      joinMoves_length_ge _ (by simp) (fun x hx => (hwf x (by simp [hx])).1)
    show ((m ++ " " ++ joinMoves (m2 :: rest)).length < 6 ↔ rest.length + 2 < 2)
    rw [String.length_append, String.length_append]
    omega

/--
C3 counterexample: with the abort deadline set 20 seconds after last activity
at time 0 and no moves played, a ping at time exactly 20 (elapsed equal to
the window) does not issue an abort, refuting the claimed biconditional in
which an elapsed time of at least the window with fewer than the minimum
number of moves issues the abort.
-/
theorem C3_counterexample :
    ¬ (pingAborts (joinMoves []) (abort_in 0 20) 20 = true ↔
        (20 ≤ (20 : Int) - 0 ∧ (0 : Nat) < 2)) := by
  decide

/--
C3 (amended): on a ping with no intervening moves, the Session Driver issues
an abort iff the elapsed time since the abort deadline was last reset
strictly exceeds the 20-second window and the moves string is shorter than 6
characters, which for a well-formed moves string says strictly fewer than 2
moves (the hardcoded minimum) have been played; at exactly the window, and at
exactly the minimum, no abort is issued.
-/
theorem C3_idle_abort_iff (lastAct now : Int) (ms : List String)
    (hwf : ∀ m ∈ ms, 4 ≤ m.length ∧ m.length ≤ 5) :
    (pingAborts (joinMoves ms) (abort_in lastAct 20) now = true ↔
      (20 < now - lastAct ∧ ms.length < 2)) := by
  unfold pingAborts should_abort_now abort_in
  rw [Bool.and_eq_true, decide_eq_true_eq, decide_eq_true_eq]
  rw [joinMoves_short_iff ms hwf]
  constructor
  · rintro ⟨ha, hb⟩
    exact ⟨by omega, hb⟩
  · rintro ⟨ha, hb⟩
    exact ⟨by omega, hb⟩

theorem C3_idle_abort_iff_witness :
    pingAborts (joinMoves ["e2e4"]) (abort_in 0 20) 21 = true :=
  (C3_idle_abort_iff 0 21 ["e2e4"] (by decide)).mpr (by decide)

theorem runUpdates_cleanup_counts (g : GameInfo) (cfg : EngineCfg) :
    ∀ (items : List StreamItem) (st : SessionState) (eff : SessionEffects),
      (runUpdates g cfg st eff items).2.1.quitCalls = eff.quitCalls ∧
      (runUpdates g cfg st eff items).2.1.donePushes = eff.donePushes := by
  intro items
  induction items with
  | nil => intro st eff; exact ⟨rfl, rfl⟩
  | cons item rest ih =>
    intro st eff
    cases item with
    | chatLine => simpa only [runUpdates] using ih st eff
    | transportErr => exact ⟨rfl, rfl⟩
    | ping now =>
      simp only [runUpdates]
      split
      · exact ih st _
      · exact ih st eff
    | gameState movesStr book eng now =>
      simp only [runUpdates]
      cases happ : applyGameState st.board (pySplit movesStr) with
      | none => exact ⟨rfl, rfl⟩
      | some newBoard =>
        simp only []
        split
        · exact ih _ _
        · exact ih _ _

/--
C2 (amended): once initialization and the first-move phase complete, every
run of the session performs exactly one `engine.quit()` call and pushes
exactly one `local_game_done` control event, whichever way the update loop
exits — stream exhaustion, a caught transport error, or even an uncaught
error (the `finally` clause runs regardless).
-/
theorem C2_cleanup_exactly_once (d : InitData) (items : List StreamItem) :
    (play_game (some d) items).quitCalls = 1 ∧
      (play_game (some d) items).donePushes = 1 := by
  have h := runUpdates_cleanup_counts d.g d.cfg items d.st ⟨[], 0, 0, 0⟩
  constructor
  · show (runUpdates d.g d.cfg d.st ⟨[], 0, 0, 0⟩ items).2.1.quitCalls + 1 = 1
    rw [h.1]
  · show (runUpdates d.g d.cfg d.st ⟨[], 0, 0, 0⟩ items).2.1.donePushes + 1 = 1
    rw [h.2]

/--
C2 counterexample: when initialization or the first-move phase raises (that
code runs before the `try` statement), `play_game` performs no engine
shutdown and pushes no completion event, refuting the claim on that exit
path.
-/
theorem C2_counterexample :
    ¬ ((play_game none []).quitCalls = 1 ∧ (play_game none []).donePushes = 1) := by
  decide

theorem drainQueue_inv (cfg : AdmConfig) (acc : Chal → HttpResult) :
    ∀ (pending : List Chal) (queued busy : Int) (p : List Chal) (q : Int),
      0 ≤ queued → queued + busy ≤ cfg.maxGames →
      drainQueue cfg acc pending queued busy = some (p, q) →
      0 ≤ q ∧ q + busy ≤ cfg.maxGames := by
  intro pending
  induction pending with
  | nil =>
    intro queued busy p q h0 hle hd
    simp only [drainQueue, Option.some.injEq, Prod.mk.injEq] at hd
    obtain ⟨h1, h2⟩ := hd
    subst h2
    exact ⟨h0, hle⟩
  | cons c rest ih =>
    intro queued busy p q h0 hle hd
    simp only [drainQueue] at hd
    split at hd
    case isTrue hcap =>
      cases hacc : acc c with
      | ok =>
        rw [hacc] at hd
        exact ih (queued + 1) busy p q (by omega) (by omega) hd
      | notFound =>
        rw [hacc] at hd
        exact ih queued busy p q h0 hle hd
      | otherError =>
        rw [hacc] at hd
        cases hd
    case isFalse hcap =>
      simp only [Option.some.injEq, Prod.mk.injEq] at hd
      obtain ⟨h1, h2⟩ := hd
      subst h2
      exact ⟨h0, hle⟩

theorem drainQueue_post (cfg : AdmConfig) (acc : Chal → HttpResult) :
    ∀ (pending : List Chal) (queued busy : Int) (p : List Chal) (q : Int),
      drainQueue cfg acc pending queued busy = some (p, q) →
      p ≠ [] → cfg.maxGames ≤ q + busy := by
  intro pending
  induction pending with
  | nil =>
    intro queued busy p q hd hne
    simp only [drainQueue, Option.some.injEq, Prod.mk.injEq] at hd
    exact absurd hd.1.symm hne
  | cons c rest ih =>
    intro queued busy p q hd hne
    simp only [drainQueue] at hd
    split at hd
    case isTrue hcap =>
      cases hacc : acc c with
      | ok =>
        rw [hacc] at hd
        exact ih (queued + 1) busy p q hd hne
      | notFound =>
        rw [hacc] at hd
        exact ih queued busy p q hd hne
      | otherError =>
        rw [hacc] at hd
        cases hd
    case isFalse hcap =>
      simp only [Option.some.injEq, Prod.mk.injEq] at hd
      obtain ⟨h1, h2⟩ := hd
      subst h2
      omega

theorem drain_step_inv (cfg : AdmConfig) (acc : Chal → HttpResult)
    (P : List Chal) (Q B : Int) (s1 : AdmState)
    (hq : 0 ≤ Q) (hb : 0 ≤ B) (hsum : Q + B ≤ cfg.maxGames)
    (h : (match drainQueue cfg acc P Q B with
          | none => none
          | some (p, q) => some (⟨q, B, p⟩ : AdmState)) = some s1) :
    admInv cfg s1 := by
  cases hd : drainQueue cfg acc P Q B with
  | none =>
    rw [hd] at h
    cases h
  | some pq =>
    obtain ⟨p, q⟩ := pq
    rw [hd] at h
    injection h with h2
    subst h2
    have hi := drainQueue_inv cfg acc P Q B p q hq hsum hd
    exact ⟨hi.1, hb, hi.2⟩

theorem drain_step_post (cfg : AdmConfig) (acc : Chal → HttpResult)
    (P : List Chal) (Q B : Int) (s1 : AdmState)
    (h : (match drainQueue cfg acc P Q B with
          | none => none
          | some (p, q) => some (⟨q, B, p⟩ : AdmState)) = some s1)
    (hne : s1.pending ≠ []) :
    cfg.maxGames ≤ s1.queuedProcesses + s1.busyProcesses := by
  cases hd : drainQueue cfg acc P Q B with
  | none =>
    rw [hd] at h
    cases h
  | some pq =>
    obtain ⟨p, q⟩ := pq
    rw [hd] at h
    injection h with h2
    subst h2
    exact drainQueue_post cfg acc P Q B p q hd hne

theorem handleEvent_inv (cfg : AdmConfig) (acc : Chal → HttpResult)
    (s : AdmState) (e : CEvent) (s1 : AdmState)
    (hinv : admInv cfg s) (hwf : wfEvent s e)
    (hstep : handleEvent cfg acc s e = some s1) : admInv cfg s1 := by
  obtain ⟨hq0, hb0, hsum⟩ := hinv
  cases e with
  | ping =>
    exact drain_step_inv cfg acc s.pending s.queuedProcesses s.busyProcesses s1
      hq0 hb0 hsum hstep
  | chatLine =>
    exact drain_step_inv cfg acc s.pending s.queuedProcesses s.busyProcesses s1
      hq0 hb0 hsum hstep
  | challenge c supported declineRes =>
    cases supported with
    | true =>
      exact drain_step_inv cfg acc (enqueueChallenge cfg.sortBy s.pending c)
        s.queuedProcesses s.busyProcesses s1 hq0 hb0 hsum hstep
    | false =>
      cases declineRes with
      | ok =>
        exact drain_step_inv cfg acc s.pending s.queuedProcesses s.busyProcesses s1
          hq0 hb0 hsum hstep
      | notFound =>
        exact drain_step_inv cfg acc s.pending s.queuedProcesses s.busyProcesses s1
          hq0 hb0 hsum hstep
      | otherError => cases hstep
  | gameStart =>
    have hpos : 0 < s.queuedProcesses := hwf.1 rfl
    have hstep2 : (match drainQueue cfg acc s.pending
          (if s.queuedProcesses ≤ 0 then s.queuedProcesses else s.queuedProcesses - 1)
          (s.busyProcesses + 1) with
        | none => none
        | some (p, q) => some (⟨q, s.busyProcesses + 1, p⟩ : AdmState)) = some s1 := hstep
    rw [if_neg (by omega)] at hstep2
    exact drain_step_inv cfg acc s.pending (s.queuedProcesses - 1)
      (s.busyProcesses + 1) s1 (by omega) (by omega) (by omega) hstep2
  | localGameDone =>
    have hpos : 0 < s.busyProcesses := hwf.2 rfl
    exact drain_step_inv cfg acc s.pending s.queuedProcesses (s.busyProcesses - 1) s1
      hq0 (by omega) (by omega) hstep

theorem admInv_of_reach (cfg : AdmConfig) (acc : Chal → HttpResult)
    (s t : AdmState) (hinv : admInv cfg s) (hr : AdmReach cfg acc s t) :
    admInv cfg t := by
  induction hr with
  | refl => exact hinv
  | step hr2 hwf hstep ih => exact handleEvent_inv cfg acc _ _ _ ih hwf hstep

/--
C1 (amended): along any well-matched sequence of control events — each
`gameStart` arriving while `queued_processes` is positive and each
`local_game_done` while `busy_processes` is positive — every state the
Admission Controller reaches from a state satisfying the invariant keeps
`0 ≤ queued_processes + busy_processes ≤ max_concurrent_games`.  The
well-matching hypothesis is necessary: a `gameStart` at `queued = 0`
increments `busy` without decrementing `queued` and can push the sum past
the maximum (see the counterexample).
-/
theorem C1_capacity_invariant (cfg : AdmConfig) (acc : Chal → HttpResult)
    (s t : AdmState) (hinv : admInv cfg s) (hr : AdmReach cfg acc s t) :
    0 ≤ t.queuedProcesses + t.busyProcesses ∧
      t.queuedProcesses + t.busyProcesses ≤ cfg.maxGames := by
  obtain ⟨h1, h2, h3⟩ := admInv_of_reach cfg acc s t hinv hr
  exact ⟨by omega, h3⟩

theorem C1_capacity_invariant_witness :
    0 ≤ (0 : Int) + 0 ∧ (0 : Int) + 0 ≤ 1 :=
  C1_capacity_invariant ⟨1, none⟩ (fun _ => .ok) initialAdmState initialAdmState
    (by unfold admInv; exact ⟨by decide, by decide, by decide⟩)
    (@AdmReach.step ⟨1, none⟩ (fun _ => .ok) initialAdmState initialAdmState
      initialAdmState .ping (AdmReach.refl _)
      (by unfold wfEvent; exact ⟨(fun h => nomatch h), (fun h => nomatch h)⟩) rfl)

/--
C1 counterexample: with `max_concurrent_games = 1`, two gameStart events each
arriving while `queued_processes` is zero leave the loop with
`busy_processes = 2`, so `queued + busy` exceeds the maximum after the second
event is handled — the claim fails for such sequences.
-/
theorem C1_counterexample :
    processEvents ⟨1, none⟩ (fun _ => .ok) initialAdmState
        [.gameStart, .gameStart] = some ⟨0, 2, []⟩ ∧
      ¬ ((0 : Int) + 2 ≤ (1 : Int)) :=
  ⟨rfl, by decide⟩

/--
C6 (amended): after every handled event, drain step included, the pending
queue is either empty or capacity is exhausted
(`max_concurrent ≤ queued + busy`); the queue length itself is not bounded by
`max_concurrent - busy` (see the counterexample).
-/
theorem C6_queue_empty_or_full (cfg : AdmConfig) (acc : Chal → HttpResult)
    (s : AdmState) (e : CEvent) (s1 : AdmState)
    (hstep : handleEvent cfg acc s e = some s1) (hne : s1.pending ≠ []) :
    cfg.maxGames ≤ s1.queuedProcesses + s1.busyProcesses := by
  cases e with
  | ping =>
    exact drain_step_post cfg acc s.pending s.queuedProcesses s.busyProcesses s1
      hstep hne
  | chatLine =>
    exact drain_step_post cfg acc s.pending s.queuedProcesses s.busyProcesses s1
      hstep hne
  | challenge c supported declineRes =>
    cases supported with
    | true =>
      exact drain_step_post cfg acc (enqueueChallenge cfg.sortBy s.pending c)
        s.queuedProcesses s.busyProcesses s1 hstep hne
    | false =>
      cases declineRes with
      | ok =>
        exact drain_step_post cfg acc s.pending s.queuedProcesses s.busyProcesses s1
          hstep hne
      | notFound =>
        exact drain_step_post cfg acc s.pending s.queuedProcesses s.busyProcesses s1
          hstep hne
      | otherError => cases hstep
  | gameStart =>
    exact drain_step_post cfg acc s.pending
      (if s.queuedProcesses ≤ 0 then s.queuedProcesses else s.queuedProcesses - 1)
      (s.busyProcesses + 1) s1 hstep hne
  | localGameDone =>
    exact drain_step_post cfg acc s.pending s.queuedProcesses (s.busyProcesses - 1) s1
      hstep hne

theorem C6_queue_empty_or_full_witness :
    (1 : Int) ≤ 1 + 0 :=
  C6_queue_empty_or_full ⟨1, none⟩ (fun _ => .ok) ⟨1, 0, [⟨1, 0⟩]⟩
    (.challenge ⟨2, 0⟩ true .ok) ⟨1, 0, [⟨1, 0⟩, ⟨2, 0⟩]⟩ rfl (by decide)

/--
C6 counterexample: with `max_concurrent_games = 1` and one challenge already
accepted (queued = 1), two further supported challenges pile up in the
pending queue, whose length 2 exceeds `max_concurrent - busy = 1` after the
third event.
-/
theorem C6_counterexample :
    processEvents ⟨1, none⟩ (fun _ => .ok) initialAdmState
        [.challenge ⟨0, 0⟩ true .ok, .challenge ⟨1, 0⟩ true .ok,
          .challenge ⟨2, 0⟩ true .ok] =
        some ⟨1, 0, [⟨1, 0⟩, ⟨2, 0⟩]⟩ ∧
      ¬ ((([⟨1, 0⟩, ⟨2, 0⟩] : List Chal).length : Int) ≤ 1 - 0) :=
  ⟨rfl, by decide⟩

/--
C7: a 404 response to a decline leaves the loop state exactly as an event
needing no action would (the loop continues); any other decline failure is
re-raised and kills the whole control loop no matter what events follow; in
the drain step a 404 from accept drops the popped head challenge and
continues draining with the rest, while any other accept failure is
re-raised out of the loop.
-/
theorem C7_only_404_swallowed :
    (∀ (cfg : AdmConfig) (acc : Chal → HttpResult) (s : AdmState) (c : Chal),
        handleEvent cfg acc s (.challenge c false .notFound) =
          handleEvent cfg acc s .ping) ∧
    (∀ (cfg : AdmConfig) (acc : Chal → HttpResult) (s : AdmState) (c : Chal)
        (es : List CEvent),
        processEvents cfg acc s (.challenge c false .otherError :: es) = none) ∧
    (∀ (cfg : AdmConfig) (acc : Chal → HttpResult) (c : Chal) (rest : List Chal)
        (queued busy : Int), queued + busy < cfg.maxGames → acc c = .notFound →
        drainQueue cfg acc (c :: rest) queued busy =
          drainQueue cfg acc rest queued busy) ∧
    (∀ (cfg : AdmConfig) (acc : Chal → HttpResult) (c : Chal) (rest : List Chal)
        (queued busy : Int), queued + busy < cfg.maxGames → acc c = .otherError →
        drainQueue cfg acc (c :: rest) queued busy = none) := by
  refine ⟨fun cfg acc s c => rfl, fun cfg acc s c es => rfl, ?_, ?_⟩
  · intro cfg acc c rest queued busy hcap hacc
    simp only [drainQueue, if_pos hcap, hacc]
  · intro cfg acc c rest queued busy hcap hacc
    simp only [drainQueue, if_pos hcap, hacc]

theorem C7_only_404_swallowed_witness :
    drainQueue ⟨1, none⟩ (fun _ => .notFound) [⟨0, 5⟩] 0 0 =
      drainQueue ⟨1, none⟩ (fun _ => .notFound) [] 0 0 :=
  C7_only_404_swallowed.2.2.1 ⟨1, none⟩ (fun _ => .notFound) ⟨0, 5⟩ [] 0 0
    (by decide) rfl

theorem mem_insEnd (c x : Chal) : ∀ (q : List Chal), x ∈ insEnd c q ↔ x = c ∨ x ∈ q := by
  intro q
  induction q with
  | nil => simp [insEnd]
  | cons d ds ih =>
    simp only [insEnd]
    split
    · simp only [List.mem_cons]
    · simp only [List.mem_cons, ih]
      tauto

theorem insEnd_of_le (c : Chal) :
    ∀ (q : List Chal), (∀ d ∈ q, c.score ≤ d.score) → insEnd c q = q ++ [c] := by
  intro q
  induction q with
  | nil => intro _; rfl
  | cons d ds ih =>
    intro h
    have hd : c.score ≤ d.score := h d (by simp)
    simp only [insEnd, if_neg (by omega : ¬ d.score < c.score)]
    rw [ih (fun x hx => h x (by simp [hx]))]
    simp

theorem pySort_append_one (xs : List Chal) (c : Chal) :
    pySortByScoreDesc (xs ++ [c]) = insEnd c (pySortByScoreDesc xs) := by
  simp [pySortByScoreDesc, List.foldl_append]

theorem lexLt_imp_scoreGe {a b : Chal} (h : lexLt a b) : scoreGe a b := by
  rcases h with h | ⟨h, _⟩
  · exact le_of_lt h
  · exact le_of_eq h

theorem pySort_sorted_id :
    ∀ (q : List Chal), List.Pairwise scoreGe q → pySortByScoreDesc q = q := by
  intro q
  induction q using List.reverseRecOn with
  | nil =>
    intro _
    rfl
  | append_singleton xs c ih =>
    intro hp
    obtain ⟨hxs, _, hcross⟩ := List.pairwise_append.mp hp
    rw [pySort_append_one, ih hxs]
    exact insEnd_of_le c xs (fun d hd => hcross d hd c (by simp))

theorem pairwise_insEnd (c : Chal) :
    ∀ (q : List Chal), List.Pairwise lexLt q → (∀ d ∈ q, d.arrival < c.arrival) →
      List.Pairwise lexLt (insEnd c q) := by
  intro q
  induction q with
  | nil =>
    intro _ _
    simp [insEnd]
  | cons d ds ih =>
    intro hp harr
    obtain ⟨hd, hds⟩ := List.pairwise_cons.mp hp
    simp only [insEnd]
    split
    case isTrue hlt =>
      refine List.pairwise_cons.mpr ⟨?_, hp⟩
      intro x hx
      rcases List.mem_cons.mp hx with rfl | hxds
      · exact Or.inl hlt
      · rcases hd x hxds with h | ⟨h, _⟩
        · exact Or.inl (by omega)
        · exact Or.inl (by omega)
    case isFalse hge =>
      refine List.pairwise_cons.mpr ⟨?_, ih hds (fun x hx => harr x (by simp [hx]))⟩
      intro x hx
      rcases (mem_insEnd c x ds).mp hx with rfl | hxds
      · have harr_d : d.arrival < x.arrival := harr d (by simp)
        rcases lt_or_eq_of_le (by omega : x.score ≤ d.score) with h | h
        · exact Or.inl h
        · exact Or.inr ⟨h, harr_d⟩
      · exact hd x hxds

theorem processChallenges_sorted_general (sortBy : Option String)
    (hs : sortBy ≠ some "first") :
    ∀ (cs q : List Chal), List.Pairwise lexLt q →
      (∀ d ∈ q, ∀ c ∈ cs, d.arrival < c.arrival) →
      List.Pairwise arrivalLt cs →
      List.Pairwise lexLt (cs.foldl (enqueueChallenge sortBy) q) := by
  intro cs
  induction cs with
  | nil =>
    intro q hq _ _
    simpa using hq
  | cons c cs2 ih =>
    intro q hq harr hcs
    obtain ⟨hc, hcs2⟩ := List.pairwise_cons.mp hcs
    rw [List.foldl_cons]
    have hq2 : enqueueChallenge sortBy q c = insEnd c q := by
      unfold enqueueChallenge
      rw [if_pos hs, pySort_append_one, pySort_sorted_id q (hq.imp lexLt_imp_scoreGe)]
    rw [hq2]
    refine ih (insEnd c q) ?_ ?_ hcs2
    · exact pairwise_insEnd c q hq (fun d hd => harr d hd c (by simp))
    · intro d hd c2 hc2
      rcases (mem_insEnd c d q).mp hd with rfl | hdq
      · exact hc c2 hc2
      · exact harr d hdq c2 (by simp [hc2])

theorem processChallenges_first_append :
    ∀ (cs q : List Chal), cs.foldl (enqueueChallenge (some "first")) q = q ++ cs := by
  intro cs
  induction cs with
  | nil =>
    intro q
    simp
  | cons c cs2 ih =>
    intro q
    rw [List.foldl_cons]
    have h1 : enqueueChallenge (some "first") q c = q ++ [c] := by
      unfold enqueueChallenge
      rw [if_neg (by simp)]
    rw [h1, ih]
    simp

/--
C5: in "first" mode the pending queue is exactly the arrival order — score is
ignored entirely, as the concrete [A(score 5), B(score 10)] example shows —
and the drain step pops the head of the queue; in score mode, for challenge
sequences with increasing arrival indices, the queue is sorted by strictly
descending score with arrival order preserved on equal scores (stability),
and in particular is weakly descending in score.
-/
theorem C5_queue_order :
    (∀ (cs : List Chal), processChallenges (some "first") cs = cs) ∧
    (processChallenges (some "first") [⟨0, 5⟩, ⟨1, 10⟩] = [⟨0, 5⟩, ⟨1, 10⟩] ∧
      popFront [⟨0, 5⟩, ⟨1, 10⟩] = some (⟨0, 5⟩, [⟨1, 10⟩])) ∧
    (∀ (sortBy : Option String) (cs : List Chal), sortBy ≠ some "first" →
        List.Pairwise arrivalLt cs →
        List.Pairwise lexLt (processChallenges sortBy cs) ∧
        List.Pairwise scoreGe (processChallenges sortBy cs)) ∧
    (∀ (cfg : AdmConfig) (acc : Chal → HttpResult) (c : Chal) (rest : List Chal)
        (queued busy : Int), queued + busy < cfg.maxGames → acc c = .ok →
        drainQueue cfg acc (c :: rest) queued busy =
          drainQueue cfg acc rest (queued + 1) busy) := by
  refine ⟨?_, ⟨?_, rfl⟩, ?_, ?_⟩
  · intro cs
    exact processChallenges_first_append cs []
  · exact processChallenges_first_append [⟨0, 5⟩, ⟨1, 10⟩] []
  · intro sortBy cs hs hcs
    have h := processChallenges_sorted_general sortBy hs cs [] List.Pairwise.nil
      (by simp) hcs
    exact ⟨h, h.imp lexLt_imp_scoreGe⟩
  · intro cfg acc c rest queued busy hcap hacc
    simp only [drainQueue, if_pos hcap, hacc]

theorem C5_queue_order_witness :
    List.Pairwise lexLt (processChallenges none [⟨0, 5⟩, ⟨1, 10⟩, ⟨2, 5⟩]) ∧
      List.Pairwise scoreGe (processChallenges none [⟨0, 5⟩, ⟨1, 10⟩, ⟨2, 5⟩]) :=
  C5_queue_order.2.2.1 none [⟨0, 5⟩, ⟨1, 10⟩, ⟨2, 5⟩] (by simp) (by decide)
